import Mathlib

/-!
# Verification of the boostedhh job-completion reconciler

Shallow embedding of `condor/check_jobs.py` (LPC-HH/boostedhh): the script
derives the expected job count for each sample from `.jdl` submission
filenames, compares expected indices against output listings on storage
(`parquet` and `pickles` subdirectories), suppresses currently running jobs,
and accumulates the jdl/err paths of missing jobs.

Conventions of the embedding:
* Pure data stands in for the filesystem: directory existence is a
  `String → Bool` flag per sample, a directory listing is the list of integer
  indices parsed from its filenames (the script parses
  `int(out.split(".")[0].split("_")[-1])`; the reconciliation consumes only
  those integers).
* Python's `dict` keyed by sample is an association list `List (String × Int)`
  with `List.lookup`.
* The script crashing (an uncaught `KeyError` from `jdl_dict[sample]`, or
  `ValueError` from `int(...)`) is modelled as `Except.error`; in that case
  the script never reaches its final report printout, so no report list is
  produced.
* One emitted `Report` models one loop iteration that appends a jdl path to
  `missing_files` and the paired err path to `err_files`; the three boolean
  flags record which diagnostic `print_red` messages the script issues at
  that emission (`No parquet directory`, `Missing output pickle`,
  `Missing output parquet`).
-/

namespace CheckJobs

/-- One missing-job emission: the script appends `jdl` to `missing_files` and
`err` to `err_files` in the same iteration.  `dirAbsent` marks an emission
from the parquet-directory-absent branch; `missPickle` / `missParquet` record
the per-index `print_red` diagnostics of the main loop. -/
structure Report where
  sample : String
  idx : Nat
  jdl : String
  err : String
  dirAbsent : Bool
  missPickle : Bool
  missParquet : Bool
  deriving DecidableEq, Repr

/-- The command-line arguments the reconciliation loop reads. -/
structure Config where
  processor : String
  tag : String
  year : String
  deriving DecidableEq, Repr

/-- The data the main loop of `check_jobs.py` consumes.  `samples` is the
storage listing (`listdir(xrddir)`) in its caller-supplied order; `jdlDict`
is the expected-count mapping; the `*Exists` flags and `*Listing` maps stand
for `Path(...).exists()` and the parsed `listdir` results; `runningJobs` is
the list of running-job name stems (`f"{year}_{sample}_{i}"` strings). -/
structure Inputs where
  samples : List String
  jdlDict : List (String × Int)
  parquetExists : String → Bool
  parquetListing : String → List Int
  picklesExists : String → Bool
  picklesListing : String → List Int
  runningJobs : List String

/-- `f"{args.year}_{sample}_{i}"`, the key matched against `running_jobs`. -/
def runKey (year sample : String) (i : Nat) : String :=
  year ++ "_" ++ sample ++ "_" ++ toString i

/-- `f"condor/{args.processor}/{args.tag}/{args.year}_{sample}_{i}.jdl"`. -/
def jdlFile (cfg : Config) (sample : String) (i : Nat) : String :=
  "condor/" ++ cfg.processor ++ "/" ++ cfg.tag ++ "/" ++ cfg.year ++ "_" ++
    sample ++ "_" ++ toString i ++ ".jdl"

/-- `f"condor/{args.processor}/{args.tag}/logs/{args.year}_{sample}_{i}.err"`. -/
def errFile (cfg : Config) (sample : String) (i : Nat) : String :=
  "condor/" ++ cfg.processor ++ "/" ++ cfg.tag ++ "/logs/" ++ cfg.year ++ "_" ++
    sample ++ "_" ++ toString i ++ ".err"

/-- Body of the loop in the parquet-directory-absent branch
(`check_jobs.py` lines 108-119): one index either is suppressed because the
job is running, or yields an emission. -/
def stepA (cfg : Config) (running : List String) (sample : String) (i : Nat) :
    Option Report :=
  if runKey cfg.year sample i ∈ running then none
  else some ⟨sample, i, jdlFile cfg sample i, errFile cfg sample i, true, false, false⟩

/-- Body of the main per-index loop (`check_jobs.py` lines 139-154): an index
missing a required output is suppressed if running, otherwise emitted with
flags recording which outputs were missing. -/
def stepC (cfg : Config) (running : List String) (sample : String)
    (pick par : List Int) (i : Nat) : Option Report :=
  if (i : Int) ∉ pick ∨ (cfg.processor ≠ "trigger" ∧ (i : Int) ∉ par) then
    if runKey cfg.year sample i ∈ running then none
    else
      some ⟨sample, i, jdlFile cfg sample i, errFile cfg sample i, false,
        decide ((i : Int) ∉ pick), decide (cfg.processor ≠ "trigger" ∧ (i : Int) ∉ par)⟩
  else none

/-- Per-sample body of the main loop (`check_jobs.py` lines 98-156):
* processor ≠ "trigger" and no parquet directory: skip if the sample has no
  `jdl_dict` entry, otherwise emit every non-running expected index
  (lines 103-121);
* otherwise, no pickles directory: `continue` — nothing emitted (lines 128-130);
* otherwise run the per-index loop; `jdl_dict[sample]` raises `KeyError` when
  the sample has no entry (line 139). -/
def checkSample (cfg : Config) (inp : Inputs) (sample : String) :
    Except String (List Report) :=
  if cfg.processor ≠ "trigger" ∧ inp.parquetExists sample = false then
    match inp.jdlDict.lookup sample with
    | none => .ok []
    | some n => .ok ((List.range n.toNat).filterMap (stepA cfg inp.runningJobs sample))
  else if inp.picklesExists sample = false then .ok []
  else
    match inp.jdlDict.lookup sample with
    | none => .error ("KeyError: " ++ sample)
    | some n =>
        .ok ((List.range n.toNat).filterMap
          (stepC cfg inp.runningJobs sample
            (inp.picklesListing sample) (inp.parquetListing sample)))

/-- Sequencing of one sample's outcome with the rest of the run: the first
uncaught exception aborts, otherwise the emissions are concatenated in
order. -/
def appendE (b rest : Except String (List Report)) : Except String (List Report) :=
  match b, rest with
  | .error e, _ => .error e
  | .ok _, .error e => .error e
  | .ok x, .ok y => .ok (x ++ y)

/-- Runs `checkSample` over a list of samples in order, concatenating the
emissions; the first uncaught exception aborts the run. -/
def reconcileList (cfg : Config) (inp : Inputs) :
    List String → Except String (List Report)
  | [] => .ok []
  | s :: rest => appendE (checkSample cfg inp s) (reconcileList cfg inp rest)

/-- The whole reconciliation pass: the main loop of `check_jobs.py` over
`samples`, producing the emission sequence (equivalently the paired
`missing_files` / `err_files` lists). -/
def reconcile (cfg : Config) (inp : Inputs) : Except String (List Report) :=
  reconcileList cfg inp inp.samples

/-- The `missing_files` accumulator: the jdl path of each emission in order. -/
def missingFiles (rs : List Report) : List String :=
  rs.map Report.jdl

/-- The `err_files` accumulator: the err path of each emission in order. -/
def errFiles (rs : List Report) : List String :=
  rs.map Report.err

/-! ## Construction of `jdl_dict` (`check_jobs.py` lines 60-68)

For each sample listed in storage, the script collects
`int(jdl[:-4].split("_")[-1])` over the `.jdl` filenames whose first
underscore token is the year and whose middle tokens joined by `_` equal the
sample, and, when that collection is non-empty, stores
`np.sort(x)[-1] + 1`. -/

/-- Python's `int(...)` on an underscore-free token: an optional sign followed
by a non-empty run of decimal digits; anything else raises (`none`). -/
def digitsToNat : List Char → Option Nat
  | [] => none
  | cs =>
      if cs.all Char.isDigit then
        some (cs.foldl (fun n c => 10 * n + (c.toNat - 48)) 0)
      else none

/-- `int(s)` for the tokens this script feeds it. -/
def pyInt (s : String) : Option Int :=
  match s.data with
  | '-' :: rest => (digitsToNat rest).map (fun n => -(n : Int))
  | '+' :: rest => (digitsToNat rest).map (fun n => (n : Int))
  | cs => (digitsToNat cs).map (fun n => (n : Int))

/-- Splits a character list at every underscore, keeping empty pieces —
Python's `split("_")` on the character level. -/
def splitChars : List Char → List (List Char)
  | [] => [[]]
  | c :: cs =>
      if c = '_' then [] :: splitChars cs
      else
        match splitChars cs with
        | [] => [[c]]
        | t :: ts => (c :: t) :: ts

/-- Python's `s.split("_")`. -/
def pySplitU (s : String) : List String :=
  (splitChars s.data).map String.mk

/-- Python's `"_".join(ts)`. -/
def joinUnderscore : List String → String
  | [] => ""
  | [t] => t
  | t :: ts => t ++ "_" ++ joinUnderscore ts

/-- Python's `s[:-4]` (by characters). -/
def stripLast4 (s : String) : String :=
  ⟨s.data.take (s.data.length - 4)⟩

/-- `jdl.split("_")[0]`, the year token of a jdl filename. -/
def jdlYear (jdl : String) : String :=
  (pySplitU jdl).headI

/-- `"_".join(jdl.split("_")[1:-1])`, the sample encoded in a jdl filename. -/
def jdlSample (jdl : String) : String :=
  joinUnderscore ((pySplitU jdl).drop 1 |>.dropLast)

/-- `jdl[:-4].split("_")[-1]`, the index token of a jdl filename (the
extension is stripped before splitting). -/
def jdlIdxToken (jdl : String) : String :=
  (pySplitU (stripLast4 jdl)).getLastD ""

/-- The jdl filenames whose year token and encoded sample match. -/
def matchingJdls (year sample : String) (jdls : List String) : List String :=
  jdls.filter (fun j => jdlYear j == year && jdlSample j == sample)

/-- Parses every jdl index token in order; `none` models the script dying on
`int(...)` of a non-numeric token. -/
def pyIntList : List String → Option (List Int)
  | [] => some []
  | j :: rest =>
      match pyInt (jdlIdxToken j), pyIntList rest with
      | some v, some vs => some (v :: vs)
      | _, _ => none

/-- The parsed index list `x` for one sample. -/
def sampleIdxs (year sample : String) (jdls : List String) : Option (List Int) :=
  pyIntList (matchingJdls year sample jdls)

/-- Insertion into a sorted list, for the embedding of `np.sort`. -/
def insertSorted (a : Int) : List Int → List Int
  | [] => [a]
  | b :: l => if a ≤ b then a :: b :: l else b :: insertSorted a l

/-- `np.sort(x)`: the ascending sort of `x`. -/
def pySort : List Int → List Int
  | [] => []
  | a :: l => insertSorted a (pySort l)

/-- `np.sort(x)[-1]`: the last element of the ascending sort (the script only
evaluates this on non-empty `x`). -/
def pySortLast (x : List Int) : Int :=
  (pySort x).getLastD 0

/-- The `jdl_dict` construction loop: for each sample in order, parse the
matching indices and record `np.sort(x)[-1] + 1` when any match; a parse
failure aborts the script. -/
def buildJdlDict (year : String) (jdls : List String) :
    List String → Except String (List (String × Int))
  | [] => .ok []
  | s :: rest =>
      match sampleIdxs year s jdls with
      | none => .error ("ValueError: " ++ s)
      | some x =>
          match buildJdlDict year jdls rest with
          | .error e => .error e
          | .ok d =>
              if x.isEmpty then .ok d else .ok ((s, pySortLast x + 1) :: d)

/-- The produced-primary index set the spec ascribes to a sample: the pickles
listing when that directory exists, empty otherwise. -/
def effPickles (inp : Inputs) (s : String) : List Int :=
  if inp.picklesExists s then inp.picklesListing s else []

/-- The produced-secondary index set the spec ascribes to a sample: the
parquet listing when that directory exists, empty otherwise. -/
def effParquet (inp : Inputs) (s : String) : List Int :=
  if inp.parquetExists s then inp.parquetListing s else []

/-- Produced-and-complete: the index has a primary output and, when secondary
checking is enabled, a secondary output. -/
def completeAt (cfg : Config) (inp : Inputs) (s : String) (i : Nat) : Prop :=
  (i : Int) ∈ effPickles inp s ∧
    (cfg.processor ≠ "trigger" → (i : Int) ∈ effParquet inp s)

/-- Running: the job's key is registered as running and some required output
is missing. -/
def runningAt (cfg : Config) (inp : Inputs) (s : String) (i : Nat) : Prop :=
  runKey cfg.year s i ∈ inp.runningJobs ∧ ¬completeAt cfg inp s i

/-- Reported missing: some emission of the run names this `(sample, index)`
pair. -/
def reportedAt (rs : List Report) (s : String) (i : Nat) : Prop :=
  ∃ r ∈ rs, r.sample = s ∧ r.idx = i

/-! ## Concrete example inputs -/

/-- A non-`trigger` configuration. -/
def exCfg : Config := ⟨"skimmer", "24v1", "2018"⟩

/-- The worked example of the spec: three expected jobs, pickles `{0,1}`,
parquet `{0,1,2}`, nothing running. -/
def exInp : Inputs where
  samples := ["ttbar"]
  jdlDict := [("ttbar", 3)]
  parquetExists := fun _ => true
  parquetListing := fun _ => [0, 1, 2]
  picklesExists := fun _ => true
  picklesListing := fun _ => [0, 1]
  runningJobs := []

/-- A sample present in storage with both listing directories but no
submission directives. -/
def c1Inp : Inputs where
  samples := ["wjets"]
  jdlDict := []
  parquetExists := fun _ => true
  parquetListing := fun _ => []
  picklesExists := fun _ => true
  picklesListing := fun _ => []
  runningJobs := []

/-- A sample with two expected jobs, an existing parquet directory and a
missing pickles directory. -/
def c2Inp : Inputs where
  samples := ["qcd"]
  jdlDict := [("qcd", 2)]
  parquetExists := fun _ => true
  parquetListing := fun _ => []
  picklesExists := fun _ => false
  picklesListing := fun _ => []
  runningJobs := []

/-- The worked example with the one incomplete job running. -/
def c4Inp : Inputs := { exInp with runningJobs := ["2018_ttbar_2"] }

/-- Two expected jobs, parquet directory absent, job 0 running. -/
def c5Inp : Inputs where
  samples := ["tt"]
  jdlDict := [("tt", 2)]
  parquetExists := fun _ => false
  parquetListing := fun _ => []
  picklesExists := fun _ => true
  picklesListing := fun _ => []
  runningJobs := ["2018_tt_0"]

/-- A `"trigger"` configuration. -/
def trigCfg : Config := ⟨"trigger", "24v1", "2018"⟩

/-- The single emission of the worked example: job 2 has a parquet output but
no pickle. -/
def c3Rep : Report :=
  ⟨"ttbar", 2, jdlFile exCfg "ttbar" 2, errFile exCfg "ttbar" 2, false, true, false⟩

/-- Submission-directive filenames of the C8 witness. -/
def c8Jdls : List String := ["2018_ttbar_0.jdl", "2018_ttbar_2.jdl", "2018_qcd_1.jdl"]

/-- Storage samples of the C8 witness. -/
def c8Samples : List String := ["ttbar", "qcd", "wjets"]

/-! ## Basic equations -/

@[simp]
theorem appendE_error_left (e : String) (x : Except String (List Report)) :
    appendE (.error e) x = .error e := rfl

@[simp]
theorem appendE_ok_error (b : List Report) (e : String) :
    appendE (.ok b) (.error e) = .error e := rfl

@[simp]
theorem appendE_ok_ok (b c : List Report) :
    appendE (.ok b) (.ok c) = .ok (b ++ c) := rfl

@[simp]
theorem reconcileList_nil (cfg : Config) (inp : Inputs) :
    reconcileList cfg inp [] = .ok [] := rfl

theorem reconcileList_cons (cfg : Config) (inp : Inputs) (s : String)
    (rest : List String) :
    reconcileList cfg inp (s :: rest) =
      appendE (checkSample cfg inp s) (reconcileList cfg inp rest) := rfl

theorem checkSample_A_none {cfg : Config} {inp : Inputs} {s : String}
    (h1 : cfg.processor ≠ "trigger") (h2 : inp.parquetExists s = false)
    (hl : inp.jdlDict.lookup s = none) :
    checkSample cfg inp s = .ok [] := by
  unfold checkSample
  rw [if_pos ⟨h1, h2⟩, hl]

theorem checkSample_A_some {cfg : Config} {inp : Inputs} {s : String} {n : Int}
    (h1 : cfg.processor ≠ "trigger") (h2 : inp.parquetExists s = false)
    (hl : inp.jdlDict.lookup s = some n) :
    checkSample cfg inp s =
      .ok ((List.range n.toNat).filterMap (stepA cfg inp.runningJobs s)) := by
  unfold checkSample
  rw [if_pos ⟨h1, h2⟩, hl]

theorem checkSample_skip {cfg : Config} {inp : Inputs} {s : String}
    (h12 : ¬(cfg.processor ≠ "trigger" ∧ inp.parquetExists s = false))
    (hp : inp.picklesExists s = false) :
    checkSample cfg inp s = .ok [] := by
  unfold checkSample
  rw [if_neg h12, if_pos hp]

theorem checkSample_main_none {cfg : Config} {inp : Inputs} {s : String}
    (h12 : ¬(cfg.processor ≠ "trigger" ∧ inp.parquetExists s = false))
    (hp : inp.picklesExists s = true)
    (hl : inp.jdlDict.lookup s = none) :
    checkSample cfg inp s = .error ("KeyError: " ++ s) := by
  unfold checkSample
  rw [if_neg h12, if_neg (by simp [hp]), hl]

theorem checkSample_main_some {cfg : Config} {inp : Inputs} {s : String} {n : Int}
    (h12 : ¬(cfg.processor ≠ "trigger" ∧ inp.parquetExists s = false))
    (hp : inp.picklesExists s = true)
    (hl : inp.jdlDict.lookup s = some n) :
    checkSample cfg inp s =
      .ok ((List.range n.toNat).filterMap
        (stepC cfg inp.runningJobs s
          (inp.picklesListing s) (inp.parquetListing s))) := by
  unfold checkSample
  rw [if_neg h12, if_neg (by simp [hp]), hl]

/-! ## Emission invariants -/

theorem stepA_eq_some {cfg : Config} {running : List String} {s : String}
    {i : Nat} {r : Report} (h : stepA cfg running s i = some r) :
    r = ⟨s, i, jdlFile cfg s i, errFile cfg s i, true, false, false⟩ ∧
      runKey cfg.year s i ∉ running := by
  unfold stepA at h
  split at h
  · exact Option.noConfusion h
  · next hrun => exact ⟨(Option.some.inj h).symm, hrun⟩

theorem stepC_eq_some {cfg : Config} {running : List String} {s : String}
    {pick par : List Int} {i : Nat} {r : Report}
    (h : stepC cfg running s pick par i = some r) :
    r = ⟨s, i, jdlFile cfg s i, errFile cfg s i, false,
          decide ((i : Int) ∉ pick),
          decide (cfg.processor ≠ "trigger" ∧ (i : Int) ∉ par)⟩ ∧
      runKey cfg.year s i ∉ running ∧
      ((i : Int) ∉ pick ∨ (cfg.processor ≠ "trigger" ∧ (i : Int) ∉ par)) := by
  unfold stepC at h
  split at h
  · next hmiss =>
      split at h
      · exact Option.noConfusion h
      · next hrun => exact ⟨(Option.some.inj h).symm, hrun, hmiss⟩
  · exact Option.noConfusion h

/-- Every emission of `checkSample` carries its own sample name, the paired
jdl/err paths built from `(year, sample, idx)`, a non-running index, and an
index below the sample's expected count. -/
theorem checkSample_ok_mem {cfg : Config} {inp : Inputs} {s : String}
    {rs : List Report} {r : Report}
    (hok : checkSample cfg inp s = .ok rs) (hr : r ∈ rs) :
    r.sample = s ∧ r.jdl = jdlFile cfg s r.idx ∧ r.err = errFile cfg s r.idx ∧
      runKey cfg.year s r.idx ∉ inp.runningJobs ∧
      ∃ n, inp.jdlDict.lookup s = some n ∧ r.idx < n.toNat := by
  by_cases hA : cfg.processor ≠ "trigger" ∧ inp.parquetExists s = false
  · cases hl : inp.jdlDict.lookup s with
    | none =>
        rw [checkSample_A_none hA.1 hA.2 hl] at hok
        cases hok
        exact absurd hr (List.not_mem_nil r)
    | some n =>
        rw [checkSample_A_some hA.1 hA.2 hl] at hok
        cases hok
        obtain ⟨i, hi, hstep⟩ := List.mem_filterMap.1 hr
        obtain ⟨hre, hrun⟩ := stepA_eq_some hstep
        subst hre
        exact ⟨rfl, rfl, rfl, hrun, n, rfl, List.mem_range.1 hi⟩
  · cases hp : inp.picklesExists s with
    | false =>
        rw [checkSample_skip hA hp] at hok
        cases hok
        exact absurd hr (List.not_mem_nil r)
    | true =>
        cases hl : inp.jdlDict.lookup s with
        | none =>
            rw [checkSample_main_none hA hp hl] at hok
            exact Except.noConfusion hok
        | some n =>
            rw [checkSample_main_some hA hp hl] at hok
            cases hok
            obtain ⟨i, hi, hstep⟩ := List.mem_filterMap.1 hr
            obtain ⟨hre, hrun, _⟩ := stepC_eq_some hstep
            subst hre
            exact ⟨rfl, rfl, rfl, hrun, n, rfl, List.mem_range.1 hi⟩

/-- Every emission of a whole run comes from `checkSample` on one of the
samples of the run. -/
theorem reconcileList_ok_mem {cfg : Config} {inp : Inputs} {ss : List String}
    {rs : List Report} {r : Report}
    (hok : reconcileList cfg inp ss = .ok rs) (hr : r ∈ rs) :
    ∃ s ∈ ss, ∃ b, checkSample cfg inp s = .ok b ∧ r ∈ b := by
  induction ss generalizing rs with
  | nil =>
      rw [reconcileList_nil] at hok
      cases hok
      exact absurd hr (List.not_mem_nil r)
  | cons s rest ih =>
      rw [reconcileList_cons] at hok
      cases hc : checkSample cfg inp s with
      | error e => rw [hc] at hok; exact Except.noConfusion hok
      | ok b =>
          rw [hc] at hok
          cases hrest : reconcileList cfg inp rest with
          | error e => rw [hrest] at hok; exact Except.noConfusion hok
          | ok brest =>
              rw [hrest, appendE_ok_ok] at hok
              cases hok
              rcases List.mem_append.1 hr with hb | hb
              · exact ⟨s, List.mem_cons_self s rest, b, hc, hb⟩
              · obtain ⟨t, ht, b2, hcb, hb2⟩ := ih hrest hb
                exact ⟨t, List.mem_cons_of_mem s ht, b2, hcb, hb2⟩

/-! ## C1 -/

/-- C1 counterexample: sample `"wjets"` is in storage with both listing
directories present but has no `jdl_dict` entry; the claim says it is
skipped without failing, but the run dies with a `KeyError` at
`range(jdl_dict[sample])` (`check_jobs.py` line 139), so no report list is
ever produced. -/
theorem c1_counterexample :
    "wjets" ∈ c1Inp.samples ∧ c1Inp.jdlDict.lookup "wjets" = none ∧
      c1Inp.parquetExists "wjets" = true ∧ c1Inp.picklesExists "wjets" = true ∧
      reconcile exCfg c1Inp = .error ("KeyError: " ++ "wjets") :=
  ⟨by simp [c1Inp], rfl, rfl, rfl, rfl⟩

/-- C1 (amended): a sample with no `expected_counts` entry is skipped without
a report only in the directory-absent branches — when secondary checking is
on and its parquet directory is missing, or when its pickles directory is
missing; when both relevant directories exist, the run fails with a
`KeyError` instead of skipping. -/
theorem c1_no_entry_behavior (cfg : Config) (inp : Inputs) (s : String)
    (hl : inp.jdlDict.lookup s = none) :
    (cfg.processor ≠ "trigger" ∧ inp.parquetExists s = false →
        checkSample cfg inp s = .ok []) ∧
      (¬(cfg.processor ≠ "trigger" ∧ inp.parquetExists s = false) →
        inp.picklesExists s = false → checkSample cfg inp s = .ok []) ∧
      (¬(cfg.processor ≠ "trigger" ∧ inp.parquetExists s = false) →
        inp.picklesExists s = true →
        checkSample cfg inp s = .error ("KeyError: " ++ s)) :=
  ⟨fun h => checkSample_A_none h.1 h.2 hl,
   fun h hp => checkSample_skip h hp,
   fun h hp => checkSample_main_none h hp hl⟩

/-- C1 witness: the amended statement applied to the concrete no-entry
sample. -/
theorem c1_no_entry_behavior_witness :
    c1Inp.jdlDict.lookup "wjets" = none ∧
      ((exCfg.processor ≠ "trigger" ∧ c1Inp.parquetExists "wjets" = false →
          checkSample exCfg c1Inp "wjets" = .ok []) ∧
        (¬(exCfg.processor ≠ "trigger" ∧ c1Inp.parquetExists "wjets" = false) →
          c1Inp.picklesExists "wjets" = false →
          checkSample exCfg c1Inp "wjets" = .ok []) ∧
        (¬(exCfg.processor ≠ "trigger" ∧ c1Inp.parquetExists "wjets" = false) →
          c1Inp.picklesExists "wjets" = true →
          checkSample exCfg c1Inp "wjets" = .error ("KeyError: " ++ "wjets"))) :=
  ⟨rfl, c1_no_entry_behavior exCfg c1Inp "wjets" rfl⟩

/-! ## C2 -/

/-- C2 counterexample: sample `"qcd"` has expected count 2, an existing
parquet directory and a missing pickles directory, no job running; the claim
demands a report for indices 0 and 1, but the script `continue`s at
`check_jobs.py` lines 128-130 and the run emits nothing at all. -/
theorem c2_counterexample :
    c2Inp.jdlDict.lookup "qcd" = some 2 ∧ c2Inp.picklesExists "qcd" = false ∧
      c2Inp.parquetExists "qcd" = true ∧ exCfg.processor ≠ "trigger" ∧
      c2Inp.runningJobs = [] ∧ reconcile exCfg c2Inp = .ok [] :=
  ⟨rfl, rfl, rfl, by decide, rfl, rfl⟩

/-- C2 (amended): when the pickles directory does not exist for a sample (and
the parquet directory exists, or secondary checking is disabled), the
reconciler skips the sample entirely, emitting no report for it — the
"empty produced-primary set" treatment is never applied. -/
theorem c2_pickles_absent_skips (cfg : Config) (inp : Inputs) (s : String)
    (hp : inp.picklesExists s = false)
    (h2 : cfg.processor = "trigger" ∨ inp.parquetExists s = true) :
    checkSample cfg inp s = .ok [] := by
  apply checkSample_skip _ hp
  rintro ⟨hproc, hpar⟩
  rcases h2 with h | h
  · exact hproc h
  · rw [h] at hpar
    exact Bool.noConfusion hpar

/-- C2 witness: the amended statement applied to the concrete
missing-pickles sample. -/
theorem c2_pickles_absent_skips_witness :
    checkSample exCfg c2Inp "qcd" = .ok [] :=
  c2_pickles_absent_skips exCfg c2Inp "qcd" rfl (Or.inr rfl)

/-! ## C4 -/

/-- C4: running suppression — whenever the key `f"{year}_{sample}_{i}"` is in
`running_jobs`, a successful run emits no report for that `(sample, i)`
pair, whatever the listings and directory-existence flags are. -/
theorem c4_running_suppression (cfg : Config) (inp : Inputs) (s : String)
    (i : Nat) (hrun : runKey cfg.year s i ∈ inp.runningJobs)
    {rs : List Report} (hok : reconcile cfg inp = .ok rs) :
    ∀ r ∈ rs, ¬(r.sample = s ∧ r.idx = i) := by
  intro r hr hri
  obtain ⟨t, _, b, hcb, hb⟩ := reconcileList_ok_mem hok hr
  obtain ⟨hsample, _, _, hnrun, _⟩ := checkSample_ok_mem hcb hb
  apply hnrun
  rw [← hsample, hri.1, hri.2]
  exact hrun

/-- C4 witness: with job 2 of the worked example running, the run emits
nothing, and in particular nothing for `("ttbar", 2)`. -/
theorem c4_running_suppression_witness :
    runKey exCfg.year "ttbar" 2 ∈ c4Inp.runningJobs ∧
      reconcile exCfg c4Inp = .ok [] ∧
      ∀ r ∈ ([] : List Report), ¬(r.sample = "ttbar" ∧ r.idx = 2) :=
  ⟨by decide, rfl, c4_running_suppression exCfg c4Inp "ttbar" 2 (by decide) rfl⟩

/-! ## C10 -/

/-- C10: after any successful run, `missing_files` and `err_files` have the
same length and for every position the two entries are the jdl path and the
err path built from the same `(year, sample, index)` triple: both lists are
images of one list of `(sample, index)` pairs under the two path builders
(which share `cfg.year`). -/
theorem c10_paired_paths (cfg : Config) (inp : Inputs) {rs : List Report}
    (hok : reconcile cfg inp = .ok rs) :
    (missingFiles rs).length = (errFiles rs).length ∧
      ∃ pairs : List (String × Nat),
        missingFiles rs = pairs.map (fun p => jdlFile cfg p.1 p.2) ∧
        errFiles rs = pairs.map (fun p => errFile cfg p.1 p.2) := by
  have hinv : ∀ r ∈ rs,
      r.jdl = jdlFile cfg r.sample r.idx ∧ r.err = errFile cfg r.sample r.idx := by
    intro r hr
    obtain ⟨t, _, b, hcb, hb⟩ := reconcileList_ok_mem hok hr
    obtain ⟨hsample, hjdl, herr, _, _⟩ := checkSample_ok_mem hcb hb
    rw [hsample]
    exact ⟨hjdl, herr⟩
  refine ⟨by simp [missingFiles, errFiles], rs.map (fun r => (r.sample, r.idx)), ?_, ?_⟩
  · rw [List.map_map]
    exact List.map_congr_left (fun r hr => (hinv r hr).1)
  · rw [List.map_map]
    exact List.map_congr_left (fun r hr => (hinv r hr).2)

/-! ## C5 -/

/-- A guarded `filterMap` is a `filter` followed by a `map`. -/
theorem filterMap_guard {α β : Type} (p : α → Prop) [DecidablePred p]
    (f : α → β) (l : List α) :
    l.filterMap (fun a => if p a then none else some (f a)) =
      (l.filter (fun a => decide (¬ p a))).map f := by
  induction l with
  | nil => rfl
  | cons a l ih =>
      by_cases h : p a
      · rw [List.filterMap_cons, List.filter_cons]
        simp [h, ih]
      · rw [List.filterMap_cons, List.filter_cons]
        simp [h, ih]

/-- C5: when secondary checking is on and the parquet directory is absent for
a sample with expected count `N`, the emissions for that sample are exactly
one per non-running index of `[0, N)` — each flagged directory-absent with no
per-index output check performed — and there are exactly `N` of them when no
job of the sample is running. -/
theorem c5_dir_absent_escalation (cfg : Config) (inp : Inputs) (s : String)
    {n : Int} {rs : List Report}
    (h1 : cfg.processor ≠ "trigger") (h2 : inp.parquetExists s = false)
    (hl : inp.jdlDict.lookup s = some n)
    (hok : checkSample cfg inp s = .ok rs) :
    (∀ r ∈ rs, r.sample = s ∧ r.dirAbsent = true ∧ r.missPickle = false ∧
        r.missParquet = false ∧ r.idx < n.toNat ∧
        runKey cfg.year s r.idx ∉ inp.runningJobs) ∧
      (∀ i, i < n.toNat → runKey cfg.year s i ∉ inp.runningJobs →
        rs.countP (fun r => r.idx == i) = 1) ∧
      ((∀ i, runKey cfg.year s i ∉ inp.runningJobs) → rs.length = n.toNat) := by
  rw [checkSample_A_some h1 h2 hl] at hok
  cases hok
  have hchar : (List.range n.toNat).filterMap (stepA cfg inp.runningJobs s) =
      ((List.range n.toNat).filter
          (fun i => decide (¬ runKey cfg.year s i ∈ inp.runningJobs))).map
        (fun i =>
          (⟨s, i, jdlFile cfg s i, errFile cfg s i, true, false, false⟩ : Report)) :=
    filterMap_guard _ _ _
  refine ⟨?_, ?_, ?_⟩
  · intro r hr
    rw [hchar] at hr
    obtain ⟨i, hi, hri⟩ := List.mem_map.1 hr
    obtain ⟨hirange, hidec⟩ := List.mem_filter.1 hi
    subst hri
    exact ⟨rfl, rfl, rfl, rfl, List.mem_range.1 hirange, of_decide_eq_true hidec⟩
  · intro i hi hnr
    rw [hchar, List.countP_map]
    have hcnt : List.countP
        ((fun r : Report => r.idx == i) ∘
          (fun j =>
            (⟨s, j, jdlFile cfg s j, errFile cfg s j, true, false, false⟩ : Report)))
        ((List.range n.toNat).filter
          (fun j => decide (¬ runKey cfg.year s j ∈ inp.runningJobs))) =
        List.count i ((List.range n.toNat).filter
          (fun j => decide (¬ runKey cfg.year s j ∈ inp.runningJobs))) := rfl
    rw [hcnt]
    exact List.count_eq_one_of_mem ((List.nodup_range _).filter _)
      (List.mem_filter.2 ⟨List.mem_range.2 hi, decide_eq_true hnr⟩)
  · intro hall
    rw [hchar, List.length_map,
      List.filter_eq_self.2 (fun a _ => decide_eq_true (hall a)), List.length_range]

/-- C5 witness: the directory-absent escalation applied to the concrete
sample, whose run emits exactly the directory-absent report for index 1. -/
theorem c5_dir_absent_escalation_witness :
    (∀ r ∈ [(⟨"tt", 1, jdlFile exCfg "tt" 1, errFile exCfg "tt" 1, true, false,
          false⟩ : Report)],
        r.sample = "tt" ∧ r.dirAbsent = true ∧ r.missPickle = false ∧
          r.missParquet = false ∧ r.idx < (2 : Int).toNat ∧
          runKey exCfg.year "tt" r.idx ∉ c5Inp.runningJobs) ∧
      (∀ i, i < (2 : Int).toNat → runKey exCfg.year "tt" i ∉ c5Inp.runningJobs →
        List.countP (fun r => r.idx == i)
          [(⟨"tt", 1, jdlFile exCfg "tt" 1, errFile exCfg "tt" 1, true, false,
            false⟩ : Report)] = 1) ∧
      ((∀ i, runKey exCfg.year "tt" i ∉ c5Inp.runningJobs) →
        [(⟨"tt", 1, jdlFile exCfg "tt" 1, errFile exCfg "tt" 1, true, false,
          false⟩ : Report)].length = (2 : Int).toNat) :=
  c5_dir_absent_escalation exCfg c5Inp "tt" (by decide) rfl rfl rfl

/-! ## C6 -/

/-- With the `"trigger"` processor, `stepC` never consults the parquet
listing. -/
theorem stepC_trigger {cfg : Config} (h : cfg.processor = "trigger")
    (running : List String) (s : String) (pick par₁ par₂ : List Int) (i : Nat) :
    stepC cfg running s pick par₁ i = stepC cfg running s pick par₂ i := by
  unfold stepC
  simp [h]

/-- `checkSample` congruence over reconcileable inputs. -/
theorem reconcileList_congr {cfg : Config} {inp₁ inp₂ : Inputs}
    (h : ∀ s, checkSample cfg inp₁ s = checkSample cfg inp₂ s) :
    ∀ ss, reconcileList cfg inp₁ ss = reconcileList cfg inp₂ ss := by
  intro ss
  induction ss with
  | nil => rfl
  | cons s rest ih => rw [reconcileList_cons, reconcileList_cons, h s, ih]

/-- With the `"trigger"` processor, `checkSample` ignores the parquet
directory flag and listing. -/
theorem checkSample_parquet_congr {cfg : Config} (h : cfg.processor = "trigger")
    (sa : List String) (jd : List (String × Int)) (pe₁ pe₂ : String → Bool)
    (pl₁ pl₂ : String → List Int) (ke : String → Bool) (kl : String → List Int)
    (ru : List String) (s : String) :
    checkSample cfg ⟨sa, jd, pe₁, pl₁, ke, kl, ru⟩ s =
      checkSample cfg ⟨sa, jd, pe₂, pl₂, ke, kl, ru⟩ s := by
  unfold checkSample
  dsimp only
  rw [if_neg (show ¬(cfg.processor ≠ "trigger" ∧ pe₁ s = false) from fun hc => hc.1 h),
    if_neg (show ¬(cfg.processor ≠ "trigger" ∧ pe₂ s = false) from fun hc => hc.1 h)]
  by_cases hp : ke s = false
  · simp only [if_pos hp]
  · simp only [if_neg hp]
    cases hl : jd.lookup s with
    | none => rfl
    | some n =>
        exact congrArg Except.ok
          (List.filterMap_congr fun i _ => stepC_trigger h ru s (kl s) (pl₁ s) (pl₂ s) i)

/-- C6: with the `"trigger"` processor, secondary outputs are never
consulted — changing the parquet directory flag and listing arbitrarily
leaves the whole report sequence unchanged. -/
theorem c6_trigger_secondary_irrelevant (cfg : Config) (inp : Inputs)
    (pe₂ : String → Bool) (pl₂ : String → List Int)
    (h : cfg.processor = "trigger") :
    reconcile cfg { inp with parquetExists := pe₂, parquetListing := pl₂ } =
      reconcile cfg inp := by
  obtain ⟨sa, jd, pe, pl, ke, kl, ru⟩ := inp
  exact reconcileList_congr
    (fun s => checkSample_parquet_congr h sa jd pe₂ pe pl₂ pl ke kl ru s) sa

/-- C6 witness: flipping the parquet directory to absent and poisoning its
listing does not change a `"trigger"` run. -/
theorem c6_trigger_secondary_irrelevant_witness :
    reconcile trigCfg
        { exInp with
          parquetExists := (fun _ => false),
          parquetListing := (fun _ => [5]) } =
      reconcile trigCfg exInp :=
  c6_trigger_secondary_irrelevant trigCfg exInp (fun _ => false) (fun _ => [5]) rfl

/-! ## C9 -/

/-- `stepC` depends on the listings only through membership. -/
theorem stepC_mem_congr {cfg : Config} {running : List String} {s : String}
    {pick₁ pick₂ par₁ par₂ : List Int} {i : Nat}
    (h1 : (i : Int) ∈ pick₁ ↔ (i : Int) ∈ pick₂)
    (h2 : (i : Int) ∈ par₁ ↔ (i : Int) ∈ par₂) :
    stepC cfg running s pick₁ par₁ i = stepC cfg running s pick₂ par₂ i := by
  unfold stepC
  rw [decide_eq_decide.2 (not_congr h1),
    decide_eq_decide.2 (and_congr_right fun _ => not_congr h2)]
  exact if_congr
    (or_congr (not_congr h1) (and_congr_right fun _ => not_congr h2)) rfl rfl

/-- `checkSample` depends on the listings only through membership. -/
theorem checkSample_listing_congr (cfg : Config)
    (sa : List String) (jd : List (String × Int)) (pe : String → Bool)
    (pl₁ pl₂ : String → List Int) (ke : String → Bool)
    (kl₁ kl₂ : String → List Int) (ru : List String) (s : String)
    (hq : ∀ x : Int, x ∈ pl₁ s ↔ x ∈ pl₂ s)
    (hk : ∀ x : Int, x ∈ kl₁ s ↔ x ∈ kl₂ s) :
    checkSample cfg ⟨sa, jd, pe, pl₁, ke, kl₁, ru⟩ s =
      checkSample cfg ⟨sa, jd, pe, pl₂, ke, kl₂, ru⟩ s := by
  unfold checkSample
  dsimp only
  by_cases hA : cfg.processor ≠ "trigger" ∧ pe s = false
  · simp only [if_pos hA]
  · simp only [if_neg hA]
    by_cases hp : ke s = false
    · simp only [if_pos hp]
    · simp only [if_neg hp]
      cases hl : jd.lookup s with
      | none => rfl
      | some n =>
          exact congrArg Except.ok
            (List.filterMap_congr fun i _ => stepC_mem_congr (hk i) (hq i))

/-- C9: produced-output listings matter only through which indices they
contain — replacing either listing by any membership-equivalent one (in
particular, duplicating any entries) yields the identical report sequence. -/
theorem c9_duplicate_listings_irrelevant (cfg : Config) (inp : Inputs)
    (pl₂ kl₂ : String → List Int)
    (hq : ∀ s (x : Int), x ∈ inp.parquetListing s ↔ x ∈ pl₂ s)
    (hk : ∀ s (x : Int), x ∈ inp.picklesListing s ↔ x ∈ kl₂ s) :
    reconcile cfg { inp with parquetListing := pl₂, picklesListing := kl₂ } =
      reconcile cfg inp := by
  obtain ⟨sa, jd, pe, pl, ke, kl, ru⟩ := inp
  exact reconcileList_congr
    (fun s => checkSample_listing_congr cfg sa jd pe pl₂ pl ke kl₂ kl ru s
      (fun x => (hq s x).symm) (fun x => (hk s x).symm)) sa

/-- C9 witness: appending duplicate entries to both listings of the worked
example changes nothing. -/
theorem c9_duplicate_listings_irrelevant_witness :
    reconcile exCfg
        { exInp with
          parquetListing := (fun _ => [0, 1, 2, 2]),
          picklesListing := (fun _ => [0, 1, 1]) } =
      reconcile exCfg exInp :=
  c9_duplicate_listings_irrelevant exCfg exInp
    (fun _ => [0, 1, 2, 2]) (fun _ => [0, 1, 1])
    (fun s x => by simp [exInp]) (fun s x => by simp [exInp])

/-! ## C3 -/

/-- C3: for a sample with an expected count that is not skipped (the skip
being the missing-pickles `continue`), every expected index lands in exactly
one of the three categories: produced-and-complete, running, or reported
missing. -/
theorem c3_index_partition (cfg : Config) (inp : Inputs) (s : String)
    {n : Int} {rs : List Report}
    (hl : inp.jdlDict.lookup s = some n)
    (hns : ¬((cfg.processor = "trigger" ∨ inp.parquetExists s = true) ∧
      inp.picklesExists s = false))
    (hok : checkSample cfg inp s = .ok rs) :
    ∀ i, i < n.toNat →
      (completeAt cfg inp s i ∧ ¬runningAt cfg inp s i ∧ ¬reportedAt rs s i) ∨
        (¬completeAt cfg inp s i ∧ runningAt cfg inp s i ∧ ¬reportedAt rs s i) ∨
        (¬completeAt cfg inp s i ∧ ¬runningAt cfg inp s i ∧ reportedAt rs s i) := by
  by_cases hA : cfg.processor ≠ "trigger" ∧ inp.parquetExists s = false
  · rw [checkSample_A_some hA.1 hA.2 hl] at hok
    have hrs : rs = (List.range n.toNat).filterMap (stepA cfg inp.runningJobs s) :=
      (Except.ok.inj hok).symm
    subst hrs
    intro i hi
    have hnc : ¬completeAt cfg inp s i := by
      rintro ⟨-, hpar⟩
      have h2 := hpar hA.1
      simp [effParquet, hA.2] at h2
    by_cases hr : runKey cfg.year s i ∈ inp.runningJobs
    · refine Or.inr (Or.inl ⟨hnc, ⟨hr, hnc⟩, ?_⟩)
      rintro ⟨r, hrmem, hrsamp, hri⟩
      obtain ⟨j, hj, hstep⟩ := List.mem_filterMap.1 hrmem
      obtain ⟨hre, hrun⟩ := stepA_eq_some hstep
      subst hre
      have hji : j = i := hri
      subst hji
      exact hrun hr
    · refine Or.inr (Or.inr ⟨hnc, fun hrn => hr hrn.1, ?_⟩)
      refine ⟨⟨s, i, jdlFile cfg s i, errFile cfg s i, true, false, false⟩,
        List.mem_filterMap.2 ⟨i, List.mem_range.2 hi, ?_⟩, rfl, rfl⟩
      unfold stepA
      rw [if_neg hr]
  · have hor : cfg.processor = "trigger" ∨ inp.parquetExists s = true := by
      by_cases ht : cfg.processor = "trigger"
      · exact Or.inl ht
      · cases hpe : inp.parquetExists s with
        | false => exact absurd ⟨ht, hpe⟩ hA
        | true => exact Or.inr rfl
    have hp : inp.picklesExists s = true := by
      cases hpk : inp.picklesExists s with
      | false => exact absurd ⟨hor, hpk⟩ hns
      | true => rfl
    rw [checkSample_main_some hA hp hl] at hok
    have hrs : rs = (List.range n.toNat).filterMap
        (stepC cfg inp.runningJobs s (inp.picklesListing s) (inp.parquetListing s)) :=
      (Except.ok.inj hok).symm
    subst hrs
    intro i hi
    have hek : effPickles inp s = inp.picklesListing s := by simp [effPickles, hp]
    have hcond : ¬completeAt cfg inp s i ↔
        ((i : Int) ∉ inp.picklesListing s ∨
          (cfg.processor ≠ "trigger" ∧ (i : Int) ∉ inp.parquetListing s)) := by
      constructor
      · intro hc
        by_cases hpk : (i : Int) ∈ inp.picklesListing s
        · by_cases ht : cfg.processor = "trigger"
          · exact absurd ⟨hek.symm ▸ hpk, fun hnt => absurd ht hnt⟩ hc
          · refine Or.inr ⟨ht, fun hpar => hc ⟨hek.symm ▸ hpk, fun _ => ?_⟩⟩
            have hpe : inp.parquetExists s = true := hor.resolve_left ht
            simp [effParquet, hpe]
            exact hpar
        · exact Or.inl hpk
      · rintro (hmk | ⟨ht, hmq⟩) ⟨hck, hcq⟩
        · exact hmk (hek ▸ hck)
        · have hpe : inp.parquetExists s = true := hor.resolve_left ht
          have hq := hcq ht
          simp [effParquet, hpe] at hq
          exact hmq hq
    by_cases hc : completeAt cfg inp s i
    · refine Or.inl ⟨hc, fun hrn => hrn.2 hc, ?_⟩
      rintro ⟨r, hrmem, hrsamp, hri⟩
      obtain ⟨j, hj, hstep⟩ := List.mem_filterMap.1 hrmem
      obtain ⟨hre, hrun, hmiss⟩ := stepC_eq_some hstep
      subst hre
      have hji : j = i := hri
      subst hji
      exact (hcond.2 hmiss) hc
    · by_cases hr : runKey cfg.year s i ∈ inp.runningJobs
      · refine Or.inr (Or.inl ⟨hc, ⟨hr, hc⟩, ?_⟩)
        rintro ⟨r, hrmem, hrsamp, hri⟩
        obtain ⟨j, hj, hstep⟩ := List.mem_filterMap.1 hrmem
        obtain ⟨hre, hrun, hmiss⟩ := stepC_eq_some hstep
        subst hre
        have hji : j = i := hri
        subst hji
        exact hrun hr
      · refine Or.inr (Or.inr ⟨hc, fun hrn => hr hrn.1, ?_⟩)
        refine ⟨⟨s, i, jdlFile cfg s i, errFile cfg s i, false,
            decide ((i : Int) ∉ inp.picklesListing s),
            decide (cfg.processor ≠ "trigger" ∧ (i : Int) ∉ inp.parquetListing s)⟩,
          List.mem_filterMap.2 ⟨i, List.mem_range.2 hi, ?_⟩, rfl, rfl⟩
        unfold stepC
        rw [if_pos (hcond.1 hc), if_neg hr]

/-- C3 witness: the partition applied to the worked example. -/
theorem c3_index_partition_witness :
    exInp.jdlDict.lookup "ttbar" = some 3 ∧
      ¬((exCfg.processor = "trigger" ∨ exInp.parquetExists "ttbar" = true) ∧
        exInp.picklesExists "ttbar" = false) ∧
      ∀ i, i < (3 : Int).toNat →
        (completeAt exCfg exInp "ttbar" i ∧ ¬runningAt exCfg exInp "ttbar" i ∧
            ¬reportedAt [c3Rep] "ttbar" i) ∨
          (¬completeAt exCfg exInp "ttbar" i ∧ runningAt exCfg exInp "ttbar" i ∧
            ¬reportedAt [c3Rep] "ttbar" i) ∨
          (¬completeAt exCfg exInp "ttbar" i ∧ ¬runningAt exCfg exInp "ttbar" i ∧
            reportedAt [c3Rep] "ttbar" i) :=
  ⟨rfl, by decide, c3_index_partition exCfg exInp "ttbar" rfl (by decide) rfl⟩

/-! ## C7 -/

/-- A `filterMap` over `range` whose steps return their own index produces
strictly ascending indices. -/
theorem pairwise_idx_filterMap (f : Nat → Option Report)
    (hf : ∀ i r, f i = some r → r.idx = i) (n : Nat) :
    ((List.range n).filterMap f).Pairwise (fun a b => a.idx < b.idx) := by
  refine List.Pairwise.filterMap f ?_ (List.pairwise_lt_range n)
  intro i j hij r hr t ht
  rw [Option.mem_def] at hr ht
  rw [hf i r hr, hf j t ht]
  exact hij

/-- The emissions of one sample come in ascending index order. -/
theorem checkSample_pairwise {cfg : Config} {inp : Inputs} {s : String}
    {rs : List Report} (hok : checkSample cfg inp s = .ok rs) :
    rs.Pairwise (fun a b => a.idx < b.idx) := by
  by_cases hA : cfg.processor ≠ "trigger" ∧ inp.parquetExists s = false
  · cases hl : inp.jdlDict.lookup s with
    | none =>
        rw [checkSample_A_none hA.1 hA.2 hl] at hok
        cases hok
        exact List.Pairwise.nil
    | some n =>
        rw [checkSample_A_some hA.1 hA.2 hl] at hok
        cases hok
        exact pairwise_idx_filterMap _
          (fun i r h => by rw [(stepA_eq_some h).1]) _
  · cases hp : inp.picklesExists s with
    | false =>
        rw [checkSample_skip hA hp] at hok
        cases hok
        exact List.Pairwise.nil
    | true =>
        cases hl : inp.jdlDict.lookup s with
        | none =>
            rw [checkSample_main_none hA hp hl] at hok
            exact Except.noConfusion hok
        | some n =>
            rw [checkSample_main_some hA hp hl] at hok
            cases hok
            exact pairwise_idx_filterMap _
              (fun i r h => by rw [(stepC_eq_some h).1]) _

/-- A successful run lists its emissions grouped by sample, samples in the
caller-supplied order, indices ascending within each sample. -/
theorem reconcileList_ordered {cfg : Config} {inp : Inputs} :
    ∀ {ss : List String} {rs : List Report}, ss.Nodup →
      reconcileList cfg inp ss = .ok rs →
      rs.Pairwise (fun a b => (a.sample = b.sample → a.idx < b.idx) ∧
        ss.indexOf a.sample ≤ ss.indexOf b.sample) := by
  intro ss
  induction ss with
  | nil =>
      intro rs _ hok
      rw [reconcileList_nil] at hok
      cases hok
      exact List.Pairwise.nil
  | cons s rest ih =>
      intro rs hnd hok
      obtain ⟨hs_notin, hnd_rest⟩ := List.nodup_cons.1 hnd
      rw [reconcileList_cons] at hok
      cases hc : checkSample cfg inp s with
      | error e => rw [hc] at hok; exact Except.noConfusion hok
      | ok b =>
          rw [hc] at hok
          cases hrest : reconcileList cfg inp rest with
          | error e => rw [hrest] at hok; exact Except.noConfusion hok
          | ok brest =>
              rw [hrest, appendE_ok_ok] at hok
              cases hok
              have hb_samp : ∀ r ∈ b, r.sample = s :=
                fun r hr => (checkSample_ok_mem hc hr).1
              have hrest_samp : ∀ r ∈ brest, r.sample ∈ rest := by
                intro r hr
                obtain ⟨t, htmem, b2, hcb, hb2⟩ := reconcileList_ok_mem hrest hr
                rw [(checkSample_ok_mem hcb hb2).1]
                exact htmem
              rw [List.pairwise_append]
              refine ⟨?_, ?_, ?_⟩
              · refine (checkSample_pairwise hc).imp_of_mem ?_
                intro a c ha hc2 hlt
                exact ⟨fun _ => hlt,
                  le_of_eq (by rw [hb_samp a ha, hb_samp c hc2])⟩
              · refine (ih hnd_rest hrest).imp_of_mem ?_
                intro a c ha hc2 hpair
                refine ⟨hpair.1, ?_⟩
                have hane : a.sample ≠ s :=
                  fun he => hs_notin (he ▸ hrest_samp a ha)
                have hcne : c.sample ≠ s :=
                  fun he => hs_notin (he ▸ hrest_samp c hc2)
                rw [List.indexOf_cons_ne rest (Ne.symm hane),
                  List.indexOf_cons_ne rest (Ne.symm hcne)]
                exact Nat.succ_le_succ hpair.2
              · intro a ha c hc2
                have has : a.sample = s := hb_samp a ha
                have hcs : c.sample ∈ rest := hrest_samp c hc2
                refine ⟨fun he => ?_, ?_⟩
                · have hcse : c.sample = s := by rw [← he, has]
                  exact absurd (hcse ▸ hcs) hs_notin
                · rw [has, List.indexOf_cons_self]
                  exact Nat.zero_le _

/-- C7: the reconciliation is a pure function — rerunning on the same inputs
gives the same result — and a successful run's report sequence is ordered:
same-sample emissions come in ascending index order and emissions follow the
caller-supplied sample order. -/
theorem c7_pure_and_ordered (cfg : Config) (inp : Inputs) {rs : List Report}
    (hnd : inp.samples.Nodup) (hok : reconcile cfg inp = .ok rs) :
    reconcile cfg inp = reconcile cfg inp ∧
      rs.Pairwise (fun a b => (a.sample = b.sample → a.idx < b.idx) ∧
        inp.samples.indexOf a.sample ≤ inp.samples.indexOf b.sample) :=
  ⟨rfl, reconcileList_ordered hnd hok⟩

/-- C7 witness: purity and ordering on the worked example. -/
theorem c7_pure_and_ordered_witness :
    reconcile exCfg exInp = reconcile exCfg exInp ∧
      List.Pairwise (fun a b => (a.sample = b.sample → a.idx < b.idx) ∧
        exInp.samples.indexOf a.sample ≤ exInp.samples.indexOf b.sample)
        [c3Rep] :=
  c7_pure_and_ordered exCfg exInp (by simp [exInp]) rfl

/-! ## C10 -/

/-- C10 witness: the pairing applied to the worked example, whose run emits
exactly the report for `("ttbar", 2)`. -/
theorem c10_paired_paths_witness :
    (missingFiles [⟨"ttbar", 2, jdlFile exCfg "ttbar" 2, errFile exCfg "ttbar" 2,
        false, true, false⟩]).length =
      (errFiles [⟨"ttbar", 2, jdlFile exCfg "ttbar" 2, errFile exCfg "ttbar" 2,
        false, true, false⟩]).length ∧
      ∃ pairs : List (String × Nat),
        missingFiles [⟨"ttbar", 2, jdlFile exCfg "ttbar" 2, errFile exCfg "ttbar" 2,
          false, true, false⟩] = pairs.map (fun p => jdlFile exCfg p.1 p.2) ∧
        errFiles [⟨"ttbar", 2, jdlFile exCfg "ttbar" 2, errFile exCfg "ttbar" 2,
          false, true, false⟩] = pairs.map (fun p => errFile exCfg p.1 p.2) :=
  c10_paired_paths exCfg exInp rfl

/-! ## C8 -/

theorem mem_insertSorted {a b : Int} {l : List Int} :
    b ∈ insertSorted a l ↔ b = a ∨ b ∈ l := by
  induction l with
  | nil => simp [insertSorted]
  | cons c l ih =>
      by_cases h : a ≤ c
      · simp [insertSorted, h]
      · simp [insertSorted, h, ih]
        tauto

theorem pairwise_insertSorted {a : Int} {l : List Int}
    (hl : l.Pairwise (· ≤ ·)) : (insertSorted a l).Pairwise (· ≤ ·) := by
  induction l with
  | nil => simp [insertSorted]
  | cons c l ih =>
      rw [List.pairwise_cons] at hl
      unfold insertSorted
      by_cases h : a ≤ c
      · rw [if_pos h]
        refine List.pairwise_cons.2 ⟨?_, List.pairwise_cons.2 ⟨hl.1, hl.2⟩⟩
        intro b hb
        rcases List.mem_cons.1 hb with rfl | hbl
        · exact h
        · exact le_trans h (hl.1 b hbl)
      · rw [if_neg h]
        refine List.pairwise_cons.2 ⟨?_, ih hl.2⟩
        intro b hb
        rcases mem_insertSorted.1 hb with rfl | hbl
        · exact le_of_not_le h
        · exact hl.1 b hbl

theorem pySort_pairwise (l : List Int) : (pySort l).Pairwise (· ≤ ·) := by
  induction l with
  | nil => exact List.Pairwise.nil
  | cons a l ih => exact pairwise_insertSorted ih

theorem mem_pySort {b : Int} {l : List Int} : b ∈ pySort l ↔ b ∈ l := by
  induction l with
  | nil => simp [pySort]
  | cons a l ih => simp [pySort, mem_insertSorted, ih]

theorem getLastD_mem (l : List Int) (d : Int) (h : l ≠ []) : l.getLastD d ∈ l := by
  induction l generalizing d with
  | nil => exact (h rfl).elim
  | cons a l ih =>
      rw [List.getLastD_cons]
      by_cases hl : l = []
      · subst hl
        simp
      · exact List.mem_cons_of_mem a (ih a hl)

theorem sorted_le_getLastD (l : List Int) (d : Int) (hp : l.Pairwise (· ≤ ·)) :
    ∀ x ∈ l, x ≤ l.getLastD d := by
  induction l generalizing d with
  | nil => intro x hx; exact absurd hx (List.not_mem_nil x)
  | cons a l ih =>
      rw [List.pairwise_cons] at hp
      intro x hx
      rw [List.getLastD_cons]
      rcases List.mem_cons.1 hx with rfl | hxl
      · by_cases hl : l = []
        · subst hl
          simp
        · exact hp.1 _ (getLastD_mem l x hl)
      · exact ih a hp.2 x hxl

/-- `np.sort(x)[-1]` on non-empty `x` is the maximum of `x`. -/
theorem pySortLast_spec {l : List Int} (h : l ≠ []) :
    pySortLast l ∈ l ∧ ∀ y ∈ l, y ≤ pySortLast l := by
  have hne : pySort l ≠ [] := by
    intro he
    cases l with
    | nil => exact h rfl
    | cons a l =>
        have hm := mem_pySort.2 (List.mem_cons_self a l)
        rw [he] at hm
        exact List.not_mem_nil a hm
  constructor
  · exact mem_pySort.1 (getLastD_mem _ 0 hne)
  · intro y hy
    exact sorted_le_getLastD _ 0 (pySort_pairwise l) y (mem_pySort.2 hy)

theorem pyIntList_ne_nil {j : String} {js : List String} {x : List Int}
    (h : pyIntList (j :: js) = some x) : x ≠ [] := by
  intro hx
  subst hx
  unfold pyIntList at h
  cases hv : pyInt (jdlIdxToken j) with
  | none => rw [hv] at h; exact Option.noConfusion h
  | some v =>
      rw [hv] at h
      cases hvs : pyIntList js with
      | none => rw [hvs] at h; exact Option.noConfusion h
      | some vs => rw [hvs] at h; exact List.noConfusion (Option.some.inj h)

/-- What the `jdl_dict` loop stores: an entry exactly for each sample with a
matching jdl, holding `np.sort(x)[-1] + 1` of its parsed index list. -/
theorem buildJdlDict_spec {year : String} {jdls : List String} :
    ∀ {samples : List String} {d : List (String × Int)},
      buildJdlDict year jdls samples = .ok d → ∀ s : String,
      ((s ∉ samples ∨ matchingJdls year s jdls = []) → d.lookup s = none) ∧
        (s ∈ samples → matchingJdls year s jdls ≠ [] →
          ∃ x, sampleIdxs year s jdls = some x ∧ x ≠ [] ∧
            d.lookup s = some (pySortLast x + 1)) := by
  intro samples
  induction samples with
  | nil =>
      intro d hok s
      have hd : ([] : List (String × Int)) = d := Except.ok.inj hok
      subst hd
      exact ⟨fun _ => rfl, fun hs => absurd hs (List.not_mem_nil s)⟩
  | cons s₀ rest ih =>
      intro d hok s
      unfold buildJdlDict at hok
      cases hx : sampleIdxs year s₀ jdls with
      | none => rw [hx] at hok; exact Except.noConfusion hok
      | some x =>
          rw [hx] at hok
          cases hrest : buildJdlDict year jdls rest with
          | error e => rw [hrest] at hok; exact Except.noConfusion hok
          | ok d' =>
              rw [hrest] at hok
              have hok2 : (if x.isEmpty = true then Except.ok d'
                  else Except.ok ((s₀, pySortLast x + 1) :: d')) =
                    (Except.ok d : Except String (List (String × Int))) := hok
              by_cases hxe : x.isEmpty = true
              · rw [if_pos hxe] at hok2
                have hd : d' = d := Except.ok.inj hok2
                subst hd
                have hx0 : x = [] := List.isEmpty_iff.1 hxe
                subst hx0
                have hmz : matchingJdls year s₀ jdls = [] := by
                  cases hmj : matchingJdls year s₀ jdls with
                  | nil => rfl
                  | cons j js =>
                      unfold sampleIdxs at hx
                      rw [hmj] at hx
                      exact absurd rfl (pyIntList_ne_nil hx)
                constructor
                · intro hcase
                  rcases hcase with hnm | hm0
                  · exact (ih hrest s).1
                      (Or.inl fun hsr => hnm (List.mem_cons_of_mem s₀ hsr))
                  · exact (ih hrest s).1 (Or.inr hm0)
                · intro hsmem hmne
                  rcases List.mem_cons.1 hsmem with rfl | hsr
                  · exact absurd hmz hmne
                  · exact (ih hrest s).2 hsr hmne
              · rw [if_neg hxe] at hok2
                have hd : (s₀, pySortLast x + 1) :: d' = d := Except.ok.inj hok2
                subst hd
                have hxne : x ≠ [] := fun h0 => hxe (by rw [h0]; rfl)
                have hmne₀ : matchingJdls year s₀ jdls ≠ [] := by
                  intro hm0
                  unfold sampleIdxs at hx
                  rw [hm0] at hx
                  exact hxne (Option.some.inj hx).symm
                by_cases hss : s = s₀
                · subst hss
                  constructor
                  · intro hcase
                    rcases hcase with hnm | hm0
                    · exact absurd (List.mem_cons_self s rest) hnm
                    · exact absurd hm0 hmne₀
                  · intro _ _
                    exact ⟨x, hx, hxne, by simp [List.lookup]⟩
                · have hskip : List.lookup s ((s₀, pySortLast x + 1) :: d') =
                      List.lookup s d' := by
                    simp [List.lookup, beq_eq_false_iff_ne.2 hss]
                  constructor
                  · intro hcase
                    rw [hskip]
                    rcases hcase with hnm | hm0
                    · exact (ih hrest s).1
                        (Or.inl fun hsr => hnm (List.mem_cons_of_mem s₀ hsr))
                    · exact (ih hrest s).1 (Or.inr hm0)
                  · intro hsmem hmne
                    rcases List.mem_cons.1 hsmem with he | hsr
                    · exact absurd he hss
                    · obtain ⟨x2, hx2, hx2ne, hlk⟩ := (ih hrest s).2 hsr hmne
                      exact ⟨x2, hx2, hx2ne, by rw [hskip]; exact hlk⟩

/-- C8: for every sample in the storage listing, the derived expected count
is the maximum index encoded in its matching jdl filenames plus one, and a
sample with no matching jdl filename (or absent from the listing) gets no
entry. -/
theorem c8_expected_counts (year : String) (jdls samples : List String)
    {d : List (String × Int)} (hok : buildJdlDict year jdls samples = .ok d)
    (s : String) :
    (matchingJdls year s jdls = [] → d.lookup s = none) ∧
      (s ∉ samples → d.lookup s = none) ∧
      (s ∈ samples → matchingJdls year s jdls ≠ [] →
        ∃ x, sampleIdxs year s jdls = some x ∧
          ∃ m, m ∈ x ∧ (∀ y ∈ x, y ≤ m) ∧ d.lookup s = some (m + 1)) := by
  obtain ⟨h1, h2⟩ := buildJdlDict_spec hok s
  refine ⟨fun hm => h1 (Or.inr hm), fun hs => h1 (Or.inl hs), fun hs hm => ?_⟩
  obtain ⟨x, hx, hxne, hlk⟩ := h2 hs hm
  obtain ⟨hmem, hub⟩ := pySortLast_spec hxne
  exact ⟨x, hx, pySortLast x, hmem, hub, hlk⟩

/-- C8 witness: the derivation applied to a concrete batch — `ttbar` gets
`max {0, 2} + 1 = 3`. -/
theorem c8_expected_counts_witness :
    (matchingJdls "2018" "ttbar" c8Jdls = [] →
        List.lookup "ttbar" [("ttbar", (3 : Int)), ("qcd", 2)] = none) ∧
      ("ttbar" ∉ c8Samples →
        List.lookup "ttbar" [("ttbar", (3 : Int)), ("qcd", 2)] = none) ∧
      ("ttbar" ∈ c8Samples → matchingJdls "2018" "ttbar" c8Jdls ≠ [] →
        ∃ x, sampleIdxs "2018" "ttbar" c8Jdls = some x ∧
          ∃ m, m ∈ x ∧ (∀ y ∈ x, y ≤ m) ∧
            List.lookup "ttbar" [("ttbar", (3 : Int)), ("qcd", 2)] = some (m + 1)) :=
  @c8_expected_counts "2018" c8Jdls c8Samples [("ttbar", (3 : Int)), ("qcd", 2)]
    rfl "ttbar"

end CheckJobs
